import Mathlib

/-!
Shallow embedding of the `exchange` crate of the flowsurface repository
(`src/exchange/src/util.rs`, `depth.rs`, `limiter.rs`, `lib.rs`,
`adapter/binance.rs`), together with theorems settling the spec claims.

Conventions of the embedding:
* Rust `i64` values are carried as `Int`; arithmetic that Rust performs with
  plain operators (which wrap in release builds) goes through `wrap64`;
  `checked_add` becomes `checkedAddI64`; `div_euclid` becomes `Int`'s `/`
  (both are Euclidean division, with nonnegative remainder).
* Rust `f32` quantities are abstracted as exact rationals (`ℚ`): the depth
  book only stores them and compares them to zero. Prices arriving as `f32`
  are abstracted as the atomic-unit count `Price::from_f32` would produce.
* `Duration`s and `Instant`s are carried as natural numbers of milliseconds;
  wall-clock epoch time is passed explicitly as whole seconds.
-/

/-- Smallest `i64` value. -/
def i64Min : Int := -(2 ^ 63)

/-- Largest `i64` value. -/
def i64Max : Int := 2 ^ 63 - 1

/-- Two's-complement wrap-around into the `i64` range, the behaviour of Rust's
plain arithmetic operators in release builds. -/
def wrap64 (x : Int) : Int := (x + 2 ^ 63) % (2 ^ 64) - 2 ^ 63

/-- `i64::checked_add`: `none` exactly when the exact sum leaves the range. -/
def checkedAddI64 (a b : Int) : Option Int :=
  if i64Min ≤ a + b ∧ a + b ≤ i64Max then some (a + b) else none

theorem wrap64_eq_self {x : Int} (hlo : i64Min ≤ x) (hhi : x ≤ i64Max) :
    wrap64 x = x := by
  unfold wrap64 i64Min i64Max at *
  have h0 : (0 : Int) ≤ x + 2 ^ 63 := by omega
  have h1 : x + 2 ^ 63 < 2 ^ 64 := by omega
  rw [Int.emod_eq_of_lt h0 h1]
  omega

/-- `PriceStep` from `util.rs`: a grouping granularity in atomic units. -/
structure PriceStep where
  units : Int
deriving DecidableEq, Repr

/-- `Price` from `util.rs`: a fixed-point price, `units` atomic units of
`10 ^ (-PRICE_SCALE)`. -/
structure Price where
  units : Int
deriving DecidableEq, Repr

/-- `Price::PRICE_SCALE`. -/
def Price.PRICE_SCALE : Nat := 8

/-- `Price::round_to_step`: round to the nearest multiple of the step
(ties toward positive infinity), identity when `step.units <= 1`. -/
def Price.round_to_step (p : Price) (step : PriceStep) : Price :=
  let unit := step.units
  if unit ≤ 1 then p
  else
    let half := unit / 2
    ⟨wrap64 (wrap64 (p.units + half) / unit * unit)⟩

/-- `Price::floor_to_step`: floor to a multiple of the step. -/
def Price.floor_to_step (p : Price) (step : PriceStep) : Price :=
  let unit := step.units
  if unit ≤ 1 then p
  else ⟨wrap64 (p.units / unit * unit)⟩

/-- `Price::ceil_to_step`: ceil to a multiple of the step; the intermediate
`checked_add` saturates to `i64::MIN`/`i64::MAX` on overflow. -/
def Price.ceil_to_step (p : Price) (step : PriceStep) : Price :=
  let unit := step.units
  if unit ≤ 1 then p
  else
    let added :=
      match checkedAddI64 p.units (unit - 1) with
      | some v => v
      | none => if p.units < 0 then i64Min else i64Max
    ⟨wrap64 (added / unit * unit)⟩

/-- `Price::round_to_side_step`: floor for the sell/bid side, ceil for the
other side. -/
def Price.round_to_side_step (p : Price) (is_sell_or_bid : Bool) (step : PriceStep) : Price :=
  if is_sell_or_bid then p.floor_to_step step else p.ceil_to_step step

/-- `MinTicksize = Power10<-8, 2>`: a decade exponent; the program keeps it
clamped into `[-8, 2]` (`Power10::new` clamps). -/
structure MinTicksize where
  power : Int
deriving DecidableEq, Repr

/-- `Price::min_tick_units`: atomic units per min tick, `10 ^ (PRICE_SCALE + power)`.
The source asserts `PRICE_SCALE + power >= 0`; the embedding is faithful on
that domain. -/
def Price.min_tick_units (min_tick : MinTicksize) : Int :=
  (10 : Int) ^ (Price.PRICE_SCALE + min_tick.power).toNat

/-- `Price::round_to_min_tick`: round to the nearest multiple of the min tick
(ties toward positive infinity), identity when the tick is one atomic unit. -/
def Price.round_to_min_tick (p : Price) (min_tick : MinTicksize) : Price :=
  let unit := Price.min_tick_units min_tick
  if unit ≤ 1 then p
  else
    let half := unit / 2
    ⟨wrap64 (wrap64 (p.units + half) / unit * unit)⟩

/-- Left-pad a decimal string with zeros to the given width, the behaviour of
Rust's `{:0width$}` format for a nonnegative integer. -/
def padZeros (s : String) (w : Nat) : String :=
  String.mk (List.replicate (w - s.length) '0') ++ s

/-- `Price::fmt_into` from `util.rs`, producing the emitted string; `none`
models the panic when `10 ^ (PRICE_SCALE + power)` leaves the `i64` range
(`checked_pow` failure, including the negative-exponent `as u32` wrap). -/
def Price.fmt_into (p : Price) (power : Int) : Option String :=
  let scale_u : Nat := Price.PRICE_SCALE
  if 0 ≤ scale_u + power ∧ (10 : Int) ^ (scale_u + power).toNat ≤ i64Max then
    let unit : Int := (10 : Int) ^ (scale_u + power).toNat
    let u := p.units
    let half := unit / 2
    let rounded_units :=
      if 0 ≤ u then wrap64 (wrap64 (u + half) / unit * unit)
      else wrap64 (wrap64 (u - half) / unit * unit)
    let decimals : Nat := if power < 0 then min (-power).toNat scale_u else 0
    let sign : String := if rounded_units < 0 then "-" else ""
    let abs_u : Nat := rounded_units.natAbs
    let scale_pow : Nat := 10 ^ scale_u
    let int_part : Nat := abs_u / scale_pow
    let base := sign ++ toString int_part
    if decimals = 0 then some base
    else
      let frac_div : Nat := 10 ^ (scale_u - decimals)
      let frac_part : Nat := (abs_u % scale_pow) / frac_div
      some (base ++ "." ++ padZeros (toString frac_part) decimals)
  else none

/-! ## Order-book depth (`depth.rs`) -/

/-- `BTreeMap<Price, f32>` modelled extensionally: a partial map from a
price's atomic-unit count to the stored quantity. -/
def PriceMap : Type := Int → Option ℚ

/-- `BTreeMap::insert`. -/
def PriceMap.insertLevel (m : PriceMap) (p : Int) (q : ℚ) : PriceMap :=
  fun k => if k = p then some q else m k

/-- `BTreeMap::remove`. -/
def PriceMap.removeLevel (m : PriceMap) (p : Int) : PriceMap :=
  fun k => if k = p then none else m k

/-- The empty map. -/
def PriceMap.empty : PriceMap := fun _ => none

/-- `DeOrder` from `depth.rs`; the `f32` price is abstracted as the
atomic-unit count that `Price::from_f32` yields for it, the `f32` quantity
as an exact rational. -/
structure DeOrder where
  price : Int
  qty : ℚ
deriving DecidableEq, Repr

/-- `DepthPayload` from `depth.rs`. -/
structure DepthPayload where
  last_update_id : Nat
  time : Nat
  bids : List DeOrder
  asks : List DeOrder
deriving DecidableEq, Repr

/-- `DepthUpdate` from `depth.rs`. -/
inductive DepthUpdate where
  | Snapshot (p : DepthPayload)
  | Diff (p : DepthPayload)
deriving DecidableEq, Repr

/-- `Depth` from `depth.rs`: the two sides of the book. -/
structure Depth where
  bids : PriceMap
  asks : PriceMap

/-- `Depth::diff_price_levels`: fold the diff's orders over one side,
zero quantity removing the (tick-rounded) level, anything else inserting. -/
def Depth.diff_price_levels (price_map : PriceMap) (orders : List DeOrder)
    (min_ticksize : MinTicksize) : PriceMap :=
  orders.foldl (fun m order =>
    let p := (Price.round_to_min_tick ⟨order.price⟩ min_ticksize).units
    if order.qty = 0 then m.removeLevel p else m.insertLevel p order.qty) price_map

/-- `Depth::update`: apply a diff to both sides. -/
def Depth.update (d : Depth) (diff : DepthPayload) (min_ticksize : MinTicksize) : Depth :=
  { bids := Depth.diff_price_levels d.bids diff.bids min_ticksize
    asks := Depth.diff_price_levels d.asks diff.asks min_ticksize }

/-- `Depth::replace_all`: rebuild each side from the snapshot's order list
(`iter().map(...).collect::<BTreeMap<_,_>>()`: inserting in order, a later
duplicate key overwriting an earlier one, with no zero-quantity filter). -/
def Depth.replace_all (snapshot : DepthPayload) (min_ticksize : MinTicksize) : Depth :=
  { bids := snapshot.bids.foldl (fun m o =>
      m.insertLevel (Price.round_to_min_tick ⟨o.price⟩ min_ticksize).units o.qty)
      PriceMap.empty
    asks := snapshot.asks.foldl (fun m o =>
      m.insertLevel (Price.round_to_min_tick ⟨o.price⟩ min_ticksize).units o.qty)
      PriceMap.empty }

/-- `LocalDepthCache` from `depth.rs`. -/
structure LocalDepthCache where
  last_update_id : Nat
  time : Nat
  depth : Depth

/-- The `Default` instance: id 0, time 0, empty book. -/
def LocalDepthCache.default : LocalDepthCache :=
  { last_update_id := 0, time := 0, depth := ⟨PriceMap.empty, PriceMap.empty⟩ }

/-- `LocalDepthCache::update`. -/
def LocalDepthCache.update (c : LocalDepthCache) (new_depth : DepthUpdate)
    (min_ticksize : MinTicksize) : LocalDepthCache :=
  match new_depth with
  | .Snapshot snapshot =>
      { last_update_id := snapshot.last_update_id
        time := snapshot.time
        depth := Depth.replace_all snapshot min_ticksize }
  | .Diff diff =>
      { last_update_id := diff.last_update_id
        time := diff.time
        depth := c.depth.update diff min_ticksize }

/-- The map the spec's words describe a snapshot side to become: each key
holds the quantity of the last order in the list whose price rounds to it
(spec: the sides "equal exactly the maps built from the snapshot's order
lists (prices rounded to the minimum tick size)"). -/
def specSnapshotSide (orders : List DeOrder) (min_ticksize : MinTicksize) : PriceMap :=
  fun k =>
    (orders.reverse.find? (fun o =>
      decide ((Price.round_to_min_tick ⟨o.price⟩ min_ticksize).units = k))).map DeOrder.qty

/-! ## Binance depth-stream handler (`adapter/binance.rs`) -/

/-- A mutation applied to the local order book, in order of application. -/
inductive BookOp where
  | snapshot (s : DepthPayload)
  | diff (d : DepthPayload)
deriving DecidableEq, Repr

/-- An `Event` sent downstream, reduced to what the claims need. -/
inductive StreamEvent where
  | depthReceived (time : Nat)
  | disconnected
deriving DecidableEq, Repr

/-- The connection `State` of `connect_market_stream`. -/
inductive ConnState where
  | connected
  | disconnected
deriving DecidableEq, Repr

/-- Outcome of the spawned `fetch_depth` REST call awaited in `try_resync`:
a snapshot, a fetch error (`Ok(Err(_))`), or a oneshot-channel error
(`Err(_)`). -/
inductive FetchOutcome where
  | ok (payload : DepthPayload)
  | fetchErr
  | channelErr
deriving DecidableEq, Repr

/-- `try_resync` from `adapter/binance.rs`: on success the fetched snapshot
is applied to the order book; on a fetch error a `Disconnected` event is sent
but the connection state is left as it was; on a channel error the state is
set to `Disconnected`. (`already_fetching` is set and cleared within the
same awaited call, so it is net-unchanged here.) Returns the new book, the
new connection state, the book mutations, and the events sent. -/
def try_resync (orderbook : LocalDepthCache) (st : ConnState) (fetch : FetchOutcome)
    (min_ticksize : MinTicksize) :
    LocalDepthCache × ConnState × List BookOp × List StreamEvent :=
  match fetch with
  | .ok depth =>
      (orderbook.update (.Snapshot depth) min_ticksize, st, [.snapshot depth], [])
  | .fetchErr => (orderbook, st, [], [.disconnected])
  | .channelErr => (orderbook, .disconnected, [], [.disconnected])

/-- The mutable state of `connect_market_stream`'s event loop that the depth
arm touches. -/
structure HandlerState where
  orderbook : LocalDepthCache
  prev_id : Nat
  already_fetching : Bool
  conn : ConnState

/-- The `StreamData::Depth(SonicDepth::Perp)` arm of `connect_market_stream`:
`first_id`/`final_id`/`prev_final_id` are the diff's identifier fields and
`d` is the `DepthPayload` that `new_depth_cache` builds from it (its
`last_update_id` is the diff's `final_id`). `fetch` resolves the snapshot
fetch that `try_resync` would await. Returns the new state, the book
mutations in order, and the events sent. -/
def handle_depth_perp (hs : HandlerState) (first_id final_id prev_final_id : Nat)
    (d : DepthPayload) (fetch : FetchOutcome) (min_ticksize : MinTicksize) :
    HandlerState × List BookOp × List StreamEvent :=
  if hs.already_fetching then (hs, [], [])
  else
    let last_update_id := hs.orderbook.last_update_id
    if final_id ≤ last_update_id ∨ last_update_id = 0 then (hs, [], [])
    else
      let resynced :=
        if (hs.prev_id = 0 ∧ first_id > last_update_id + 1) ∨ last_update_id + 1 > final_id then
          try_resync hs.orderbook hs.conn fetch min_ticksize
        else (hs.orderbook, hs.conn, [], [])
      let ob := resynced.1
      let conn := resynced.2.1
      let ops := resynced.2.2.1
      let evs := resynced.2.2.2
      if hs.prev_id = 0 ∨ hs.prev_id = prev_final_id then
        (⟨ob.update (.Diff d) min_ticksize, final_id, false, conn⟩,
          ops ++ [.diff d], evs ++ [.depthReceived d.time])
      else
        (⟨ob, hs.prev_id, false, .disconnected⟩, ops, evs ++ [.disconnected])

/-! ## Rate limiters (`limiter.rs`)

Durations and `Instant`s are milliseconds (`Nat`); the wall-clock reading
`SystemTime::now() - UNIX_EPOCH` is passed in as whole seconds. The source
computes the window length in whole seconds (`Duration::as_secs`), hence the
`/ 1000`. The embedding is faithful for windows of at least one second (for
a sub-second window Rust's `%` by zero would panic). -/

/-- `FixedWindowBucket` from `limiter.rs`. -/
structure FixedWindowBucket where
  max_tokens : Nat
  available_tokens : Nat
  last_refill : Nat
  refill_rate : Nat
deriving DecidableEq, Repr

/-- `FixedWindowBucket::new` at creation instant `now`. -/
def FixedWindowBucket.new (max_tokens : Nat) (refill_rate : Nat) (now : Nat) :
    FixedWindowBucket :=
  ⟨max_tokens, max_tokens, now, refill_rate⟩

/-- `FixedWindowBucket::refill`: reset the tokens when a full window has
elapsed since the last refill or the wall clock sits in the first second of
the current fixed window. -/
def FixedWindowBucket.refill (b : FixedWindowBucket) (now epoch_secs : Nat) :
    FixedWindowBucket :=
  let period_seconds := b.refill_rate / 1000
  let seconds_in_current_period := epoch_secs % period_seconds
  let elapsed := now - b.last_refill
  if b.refill_rate ≤ elapsed ∨ seconds_in_current_period < 1 then
    { b with available_tokens := b.max_tokens, last_refill := now }
  else b

/-- `FixedWindowBucket::calculate_wait_time`: admit (and deduct) when enough
tokens remain, otherwise return the time left until the window refills. -/
def FixedWindowBucket.calculate_wait_time (b : FixedWindowBucket)
    (now epoch_secs tokens : Nat) : Option Nat × FixedWindowBucket :=
  let b := b.refill now epoch_secs
  if tokens ≤ b.available_tokens then
    (none, { b with available_tokens := b.available_tokens - tokens })
  else
    (some (b.refill_rate - (now - b.last_refill)), b)

/-- Run a sequence of `calculate_wait_time` calls, each given as
`(now, epoch_secs, tokens)`; returns the final bucket and the wait results
in order. -/
def FixedWindowBucket.runCalls (b : FixedWindowBucket) :
    List (Nat × Nat × Nat) → FixedWindowBucket × List (Option Nat)
  | [] => (b, [])
  | (now, epoch_secs, tokens) :: rest =>
      let r := b.calculate_wait_time now epoch_secs tokens
      let rec' := r.2.runCalls rest
      (rec'.1, r.1 :: rec'.2)

/-- `DynamicLimitReason` from `limiter.rs`. -/
inductive DynamicLimitReason where
  | HeaderRate
  | FixedWindowRate
deriving DecidableEq, Repr

/-- `DynamicBucket` from `limiter.rs`. -/
structure DynamicBucket where
  max_weight : Nat
  current_used_weight : Nat
  last_updated : Nat
  refill_rate : Nat
  fallback_bucket : FixedWindowBucket
deriving DecidableEq, Repr

/-- `DynamicBucket::update_weight` at instant `now`. -/
def DynamicBucket.update_weight (b : DynamicBucket) (new_weight : Nat) (now : Nat) :
    DynamicBucket :=
  if 0 < new_weight then
    { b with current_used_weight := new_weight, last_updated := now }
  else b

/-- `DynamicBucket::prepare_with_header_data`: while the venue-reported
usage is authoritative, admit only if the remaining declared budget covers
the weight (`saturating_sub`), otherwise wait out the venue's declared
window plus a 500 ms margin. -/
def DynamicBucket.prepare_with_header_data (b : DynamicBucket)
    (epoch_secs weight : Nat) : Option Nat × Option DynamicLimitReason :=
  let available := b.max_weight - b.current_used_weight
  if weight ≤ available then (none, none)
  else
    let period_seconds := b.refill_rate / 1000
    let seconds_in_period := epoch_secs % period_seconds
    (some ((period_seconds - seconds_in_period) * 1000 + 500),
      some DynamicLimitReason.HeaderRate)

/-- `DynamicBucket::prepare_request`: use the venue report while it is fresh
(at most one window old) and nonzero, otherwise fall back to the fixed
window bucket. -/
def DynamicBucket.prepare_request (b : DynamicBucket)
    (now epoch_secs weight : Nat) :
    (Option Nat × Option DynamicLimitReason) × DynamicBucket :=
  let elapsed := now - b.last_updated
  if elapsed ≤ b.refill_rate ∧ 0 < b.current_used_weight then
    (b.prepare_with_header_data epoch_secs weight, b)
  else
    match b.fallback_bucket.calculate_wait_time now epoch_secs weight with
    | (none, fb) => ((none, none), { b with fallback_bucket := fb })
    | (some wait_time, fb) =>
        ((some wait_time, some DynamicLimitReason.FixedWindowRate),
          { b with fallback_bucket := fb })

/-! ## Ticker (`lib.rs`) -/

/-- Modelled from the spec: the `Exchange` venue enum lives in `adapter.rs`,
which is not among the provided sources; the spec names Binance, Bybit,
Hyperliquid and OKX venues split by market kind. Only its decidable
equality matters for the claims below. -/
inductive Exchange where
  | BinanceLinear | BinanceInverse | BinanceSpot
  | BybitLinear | BybitInverse | BybitSpot
  | HyperliquidLinear | HyperliquidSpot
  | OkexLinear | OkexInverse | OkexSpot
deriving DecidableEq, Repr

/-- The per-byte validity check of `Ticker::new_with_display`:
`is_ascii_graphic` (`0x21..=0x7E`) and neither `:` (58) nor `|` (124). -/
def tickerByteOk (b : Nat) : Bool :=
  (0x21 ≤ b && b ≤ 0x7E) && !(b == 58) && !(b == 124)

/-- Zero-pad a byte string to the fixed 28-byte buffer. -/
def padTo28 (s : List Nat) : List Nat := s ++ List.replicate (28 - s.length) 0

/-- `Ticker` from `lib.rs`. The Rust type derives `PartialEq`, `Eq` and
`Hash`, which compare and hash every field; the model's equality is likewise
structural over all four fields. -/
structure Ticker where
  bytes : List Nat
  exchange : Exchange
  display_bytes : List Nat
  has_display_symbol : Bool
deriving DecidableEq, Repr

/-- `Ticker::new_with_display`; `none` models the assertion panics (symbol
too long, or a byte that is not graphic ASCII or is `:`/`|`). The symbol
arrives as its byte string. -/
def Ticker.new_with_display (ticker : List Nat) (exchange : Exchange)
    (display_symbol : Option (List Nat)) : Option Ticker :=
  if ticker.length ≤ 28 ∧ ticker.all tickerByteOk then
    match display_symbol with
    | none => some ⟨padTo28 ticker, exchange, List.replicate 28 0, false⟩
    | some display =>
        if display.length ≤ 28 ∧ display.all tickerByteOk then
          some ⟨padTo28 ticker, exchange, padTo28 display, true⟩
        else none
  else none

/-- `Ticker::new`. -/
def Ticker.new (ticker : List Nat) (exchange : Exchange) : Option Ticker :=
  Ticker.new_with_display ticker exchange none

/-- `Ticker::as_str`: the buffer up to the first zero byte (the source takes
the position of the first `0`, defaulting to the full length, and slices;
on the fixed buffer that is exactly `takeWhile (· ≠ 0)`). This is the symbol
component of `to_full_symbol_and_type`. -/
def Ticker.as_str (t : Ticker) : List Nat :=
  t.bytes.takeWhile (fun b => !(b == 0))

/-! ## Claim C4: directional rounding of `round_to_side_step` -/

/-- C4 (counterexample): the claim "`round_to_side_step(p, false, step)`
returns a price greater than or equal to `p` for every `Price p`" fails at
`p.units = i64::MAX`, `step.units = 2`: the saturating `checked_add` clamps
the adjusted value, and the result is `i64::MAX - 1 < p.units`. -/
theorem C4_counterexample :
    (Price.round_to_side_step ⟨i64Max⟩ false ⟨2⟩).units < (Price.mk i64Max).units := by
  decide

/-- C4 (amended): for every price and step, a step unit count of at most one
makes both sides the identity; for a step of at least two, the bid/floor
side never exceeds the input provided the floored value cannot underflow
`i64` (`i64::MIN + step - 1 ≤ p.units`), and the ask/ceil side is never
below the input provided the `checked_add` of `step - 1` cannot overflow
(`p.units + step - 1 ≤ i64::MAX`). -/
theorem C4_round_to_side_step (p : Price) (step : PriceStep)
    (hp₁ : i64Min ≤ p.units) (hp₂ : p.units ≤ i64Max) :
    (step.units ≤ 1 →
      p.round_to_side_step true step = p ∧ p.round_to_side_step false step = p)
    ∧ (2 ≤ step.units → i64Min + (step.units - 1) ≤ p.units →
        (p.round_to_side_step true step).units ≤ p.units)
    ∧ (2 ≤ step.units → p.units + (step.units - 1) ≤ i64Max →
        p.units ≤ (p.round_to_side_step false step).units) := by
  have efloor : p.round_to_side_step true step = p.floor_to_step step := rfl
  have eceil : p.round_to_side_step false step = p.ceil_to_step step := rfl
  refine ⟨fun h => ?_, fun h2 hlo => ?_, fun h2 hhi => ?_⟩
  · rw [efloor, eceil]
    constructor <;> simp [Price.floor_to_step, Price.ceil_to_step, h]
  · rw [efloor]
    have hu : ¬ step.units ≤ 1 := by omega
    simp only [Price.floor_to_step, if_neg hu]
    have hpos : (0 : Int) < step.units := by omega
    have hne : step.units ≠ 0 := by omega
    have hdm := Int.ediv_add_emod p.units step.units
    have hr0 : 0 ≤ p.units % step.units := Int.emod_nonneg _ hne
    have hrlt : p.units % step.units < step.units := Int.emod_lt_of_pos _ hpos
    have hs_eq : p.units / step.units * step.units = p.units - p.units % step.units := by
      have hmc : p.units / step.units * step.units
          = step.units * (p.units / step.units) := by ring
      rw [hmc]; linarith [hdm]
    have hw : wrap64 (p.units / step.units * step.units)
        = p.units / step.units * step.units := by
      refine wrap64_eq_self ?_ ?_ <;>
        (rw [hs_eq]; simp only [i64Min, i64Max] at *; omega)
    rw [hw, hs_eq]; omega
  · rw [eceil]
    have hu : ¬ step.units ≤ 1 := by omega
    have hadd : checkedAddI64 p.units (step.units - 1)
        = some (p.units + (step.units - 1)) := by
      unfold checkedAddI64
      rw [if_pos]
      constructor <;> (simp only [i64Min, i64Max] at *; omega)
    simp only [Price.ceil_to_step, if_neg hu, hadd]
    have hpos : (0 : Int) < step.units := by omega
    have hne : step.units ≠ 0 := by omega
    set a := p.units + (step.units - 1) with ha
    have hdm := Int.ediv_add_emod a step.units
    have hr0 : 0 ≤ a % step.units := Int.emod_nonneg _ hne
    have hrlt : a % step.units < step.units := Int.emod_lt_of_pos _ hpos
    have hs_eq : a / step.units * step.units = a - a % step.units := by
      have hmc : a / step.units * step.units = step.units * (a / step.units) := by ring
      rw [hmc]; linarith [hdm]
    have hw : wrap64 (a / step.units * step.units) = a / step.units * step.units := by
      refine wrap64_eq_self ?_ ?_ <;>
        (rw [hs_eq]; simp only [i64Min, i64Max] at *; omega)
    rw [hw, hs_eq]; omega

/-- C4 (witness): the amended theorem applied at `p.units = 100`,
`step.units = 7`. -/
theorem C4_witness :
    i64Min ≤ (100 : Int) ∧ (100 : Int) ≤ i64Max ∧
    (2 ≤ (7 : Int) → i64Min + ((7 : Int) - 1) ≤ (100 : Int) →
      (Price.round_to_side_step ⟨100⟩ true ⟨7⟩).units ≤ (100 : Int)) :=
  ⟨by decide, by decide,
    (C4_round_to_side_step ⟨100⟩ ⟨7⟩ (by decide) (by decide)).2.1⟩

/-! ## Claim C8: formatting rounds by sign and keeps the integer part -/

/-- C8 (code bug): formatting a negative price does not mirror the positive
round-half-up. `fmt_into` computes the rounded unit count for a negative
value as `((u - half).div_euclid(unit)) * unit`; `div_euclid` floors, so the
bias and the floor push every negative non-tie downward. At the exact value
`-1.0` (`units = -100000000`, precision power `0`) the emitted string is
`"-2"`, while `+1.0` emits `"1"`; the sign-mirrored rounding the claim (and
spec) state would emit `"-1"`. -/
theorem C8_fmt_into_negative_rounding :
    Price.fmt_into ⟨-100000000⟩ 0 = some "-2" ∧
    Price.fmt_into ⟨100000000⟩ 0 = some "1" := by
  constructor <;> decide

/-! ## Claim C9: Ticker equality and the display alias -/

/-- C9 (counterexample): two tickers built with the same exchange and the
same raw symbol, one without and one with a display alias, are *not* equal:
the derived `PartialEq`/`Eq`/`Hash` compare the `display_bytes` and
`has_display_symbol` fields too. The claim says they must be equal. -/
theorem C9_counterexample :
    Ticker.new [66, 84, 67] Exchange.BinanceLinear ≠
      Ticker.new_with_display [66, 84, 67] Exchange.BinanceLinear (some [88]) ∧
    (Ticker.new [66, 84, 67] Exchange.BinanceLinear).isSome = true ∧
    (Ticker.new_with_display [66, 84, 67] Exchange.BinanceLinear
      (some [88])).isSome = true := by
  refine ⟨?_, by decide, by decide⟩
  decide

/-- C9 (amended): equality of `Ticker` values is structural over all four
fields — venue, raw symbol bytes, display-alias bytes and the display flag —
so it is *not* independent of the display alias; tickers differing in venue
or raw symbol remain unequal. -/
theorem C9_ticker_equality (t₁ t₂ : Ticker) :
    (t₁ = t₂ ↔ t₁.bytes = t₂.bytes ∧ t₁.exchange = t₂.exchange ∧
      t₁.display_bytes = t₂.display_bytes ∧
      t₁.has_display_symbol = t₂.has_display_symbol) := by
  constructor
  · rintro rfl; exact ⟨rfl, rfl, rfl, rfl⟩
  · rintro ⟨h1, h2, h3, h4⟩
    cases t₁; cases t₂; simp_all

/-! ## Claim C10: Ticker construction domain and round-trip -/

/-- A string of nonzero bytes followed by zero padding is cut back to the
string by `takeWhile (· ≠ 0)`. -/
theorem takeWhile_append_zeros (s : List Nat) (n : Nat) (hok : ∀ b ∈ s, b ≠ 0) :
    (s ++ List.replicate n 0).takeWhile (fun b => !(b == 0)) = s := by
  induction s with
  | nil =>
      cases n with
      | zero => rfl
      | succ m => simp [List.replicate, List.takeWhile]
  | cons a as ih =>
      have ha : a ≠ 0 := hok a (by simp)
      have hb : (a == 0) = false := by simp [ha]
      simp only [List.cons_append, List.takeWhile, hb, Bool.not_false, List.append_eq]
      rw [ih (fun b hb2 => hok b (by simp [hb2]))]

/-- Bytes accepted by `tickerByteOk` are nonzero (graphic ASCII starts at
`0x21`). -/
theorem tickerByteOk_ne_zero {b : Nat} (h : tickerByteOk b = true) : b ≠ 0 := by
  unfold tickerByteOk at h
  simp only [Bool.and_eq_true, decide_eq_true_eq] at h
  omega

/-- C10 (counterexample): the space byte `0x20` is printable ASCII and is
neither `:` nor `|`, and the one-byte string fits the length bound, yet
construction panics (the source demands `is_ascii_graphic`, which starts at
`0x21`). -/
theorem C10_counterexample :
    Ticker.new [32] Exchange.BinanceLinear = none ∧
    ((0x20 : Nat) ≤ 32 ∧ (32 : Nat) ≤ 0x7E) ∧ (32 : Nat) ≠ 58 ∧
    (32 : Nat) ≠ 124 ∧ ([32] : List Nat).length ≤ 28 := by
  decide

/-- C10 (amended): for every byte string of at most 28 *graphic* ASCII
bytes (`0x21..=0x7E`) none of which is `:` or `|`, `Ticker::new` succeeds
and `as_str` (the symbol `to_full_symbol_and_type` returns) recovers the
string exactly; a string violating the length or byte conditions makes
construction panic. -/
theorem C10_ticker_new (s : List Nat) (e : Exchange) :
    (s.length ≤ 28 → s.all tickerByteOk = true →
      ∃ t, Ticker.new s e = some t ∧ t.as_str = s)
    ∧ (¬ (s.length ≤ 28 ∧ s.all tickerByteOk = true) → Ticker.new s e = none) := by
  constructor
  · intro hlen hok
    refine ⟨⟨padTo28 s, e, List.replicate 28 0, false⟩, ?_, ?_⟩
    · unfold Ticker.new Ticker.new_with_display
      rw [if_pos ⟨hlen, hok⟩]
    · show (padTo28 s).takeWhile (fun b => !(b == 0)) = s
      unfold padTo28
      exact takeWhile_append_zeros s _ (fun b hb =>
        tickerByteOk_ne_zero (List.all_eq_true.mp hok b hb))
  · intro hviol
    unfold Ticker.new Ticker.new_with_display
    rw [if_neg hviol]

/-- C10 (witness): the amended theorem applied to the byte string "BTC". -/
theorem C10_witness :
    ([66, 84, 67] : List Nat).length ≤ 28 ∧
    ([66, 84, 67] : List Nat).all tickerByteOk = true ∧
    ∃ t, Ticker.new [66, 84, 67] Exchange.BinanceLinear = some t ∧
      t.as_str = [66, 84, 67] :=
  ⟨by decide, by decide,
    (C10_ticker_new [66, 84, 67] Exchange.BinanceLinear).1 (by decide) (by decide)⟩

/-! ## Depth characterization lemmas -/

/-- Pointwise value of `diff_price_levels`: the last order of the diff whose
price rounds to the key decides the entry (removal on zero quantity),
untouched keys keep their old value. -/
theorem diff_price_levels_apply (orders : List DeOrder) (m : PriceMap)
    (mt : MinTicksize) (k : Int) :
    Depth.diff_price_levels m orders mt k =
      match orders.reverse.find? (fun o =>
          decide ((Price.round_to_min_tick ⟨o.price⟩ mt).units = k)) with
      | some o => if o.qty = 0 then none else some o.qty
      | none => m k := by
  induction orders generalizing m with
  | nil => rfl
  | cons o os ih =>
      have step_eq : Depth.diff_price_levels m (o :: os) mt =
          Depth.diff_price_levels
            (if o.qty = 0 then
              m.removeLevel (Price.round_to_min_tick ⟨o.price⟩ mt).units
             else m.insertLevel (Price.round_to_min_tick ⟨o.price⟩ mt).units o.qty)
            os mt := by
        simp only [Depth.diff_price_levels, List.foldl_cons]
      rw [step_eq, ih, List.reverse_cons, List.find?_append]
      cases hfind : os.reverse.find? (fun o2 =>
          decide ((Price.round_to_min_tick ⟨o2.price⟩ mt).units = k)) with
      | some o2 => rw [Option.or_some]
      | none =>
          rw [Option.none_or]
          cases hpo : decide ((Price.round_to_min_tick ⟨o.price⟩ mt).units = k) with
          | true =>
              have hk : k = (Price.round_to_min_tick ⟨o.price⟩ mt).units :=
                (of_decide_eq_true hpo).symm
              simp only [List.find?_cons, hpo, List.find?_nil]
              split <;> simp [PriceMap.removeLevel, PriceMap.insertLevel, if_pos hk]
          | false =>
              have hk : ¬ k = (Price.round_to_min_tick ⟨o.price⟩ mt).units :=
                fun h => of_decide_eq_false hpo h.symm
              simp only [List.find?_cons, hpo, List.find?_nil]
              split <;> simp [PriceMap.removeLevel, PriceMap.insertLevel, if_neg hk]

/-- Pointwise value of one side of `replace_all` (the `collect` of the
snapshot's orders): the last order whose price rounds to the key decides the
entry, other keys come from the start map. -/
theorem replace_side_apply (orders : List DeOrder) (m : PriceMap)
    (mt : MinTicksize) (k : Int) :
    orders.foldl (fun m2 o =>
        m2.insertLevel (Price.round_to_min_tick ⟨o.price⟩ mt).units o.qty) m k =
      match orders.reverse.find? (fun o =>
          decide ((Price.round_to_min_tick ⟨o.price⟩ mt).units = k)) with
      | some o => some o.qty
      | none => m k := by
  induction orders generalizing m with
  | nil => rfl
  | cons o os ih =>
      rw [List.foldl_cons, ih, List.reverse_cons, List.find?_append]
      cases hfind : os.reverse.find? (fun o2 =>
          decide ((Price.round_to_min_tick ⟨o2.price⟩ mt).units = k)) with
      | some o2 => rw [Option.or_some]
      | none =>
          rw [Option.none_or]
          cases hpo : decide ((Price.round_to_min_tick ⟨o.price⟩ mt).units = k) with
          | true =>
              have hk : k = (Price.round_to_min_tick ⟨o.price⟩ mt).units :=
                (of_decide_eq_true hpo).symm
              simp only [List.find?_cons, hpo, List.find?_nil]
              simp [PriceMap.insertLevel, if_pos hk]
          | false =>
              have hk : ¬ k = (Price.round_to_min_tick ⟨o.price⟩ mt).units :=
                fun h => of_decide_eq_false hpo h.symm
              simp only [List.find?_cons, hpo, List.find?_nil]
              simp [PriceMap.insertLevel, if_neg hk]

/-- A side of the book holds no zero-quantity entry. -/
def noZeroLevels (m : PriceMap) : Prop := ∀ k q, m k = some q → q ≠ 0

/-! ## Claim C2: no zero-quantity entries -/

/-- C2 (counterexample): a snapshot whose order list carries a zero
quantity is copied verbatim into the book — `replace_all` has no
zero-quantity filter — so after applying such a snapshot the bids side holds
an entry of quantity zero at that price, contrary to the claim that snapshot
application also yields a zero-free book. -/
theorem C2_counterexample :
    (LocalDepthCache.default.update
        (.Snapshot ⟨7, 0, [⟨100, 0⟩], []⟩) ⟨-8⟩).depth.bids 100 = some 0 := by
  decide

/-- C2 (amended): diff application never introduces a zero-quantity entry
(it preserves the zero-free invariant), and a `(P, 0)` pair removes `P`
provided no later pair of the same diff rounds to `P` with another quantity;
a snapshot reproduces its order list verbatim, so the snapshot side of the
claim holds only when the snapshot itself lists no zero-quantity order. -/
theorem C2_no_zero_levels (mt : MinTicksize) (m : PriceMap) (orders : List DeOrder)
    (c : LocalDepthCache) (s : DepthPayload) (P : Int) (hmt : -8 ≤ mt.power) :
    (noZeroLevels m → noZeroLevels (Depth.diff_price_levels m orders mt))
    ∧ (∀ o, orders.reverse.find? (fun o2 =>
          decide ((Price.round_to_min_tick ⟨o2.price⟩ mt).units = P)) = some o →
        o.qty = 0 → Depth.diff_price_levels m orders mt P = none)
    ∧ ((∀ o ∈ s.bids, o.qty ≠ 0) → (∀ o ∈ s.asks, o.qty ≠ 0) →
        noZeroLevels (c.update (.Snapshot s) mt).depth.bids ∧
        noZeroLevels (c.update (.Snapshot s) mt).depth.asks) := by
  refine ⟨?_, ?_, ?_⟩
  · intro hm k q hq
    rw [diff_price_levels_apply] at hq
    revert hq
    cases hfind : orders.reverse.find? (fun o =>
        decide ((Price.round_to_min_tick ⟨o.price⟩ mt).units = k)) with
    | some o =>
        intro hq
        have hq2 : (if o.qty = 0 then none else some o.qty) = some q := hq
        by_cases hz : o.qty = 0
        · simp [hz] at hq2
        · rw [if_neg hz] at hq2
          cases hq2
          exact hz
    | none => exact hm k q
  · intro o hfind hq0
    rw [diff_price_levels_apply, hfind]
    show (if o.qty = 0 then none else some o.qty) = none
    rw [if_pos hq0]
  · intro hb ha
    constructor <;> intro k q hq
    · have hq2 : s.bids.foldl (fun m2 o =>
          m2.insertLevel (Price.round_to_min_tick ⟨o.price⟩ mt).units o.qty)
          PriceMap.empty k = some q := hq
      rw [replace_side_apply] at hq2
      revert hq2
      cases hfind : s.bids.reverse.find? (fun o =>
          decide ((Price.round_to_min_tick ⟨o.price⟩ mt).units = k)) with
      | some o =>
          intro hq2
          cases hq2
          exact hb o (List.mem_reverse.mp (List.mem_of_find?_eq_some hfind))
      | none => intro hq2; cases hq2
    · have hq2 : s.asks.foldl (fun m2 o =>
          m2.insertLevel (Price.round_to_min_tick ⟨o.price⟩ mt).units o.qty)
          PriceMap.empty k = some q := hq
      rw [replace_side_apply] at hq2
      revert hq2
      cases hfind : s.asks.reverse.find? (fun o =>
          decide ((Price.round_to_min_tick ⟨o.price⟩ mt).units = k)) with
      | some o =>
          intro hq2
          cases hq2
          exact ha o (List.mem_reverse.mp (List.mem_of_find?_eq_some hfind))
      | none => intro hq2; cases hq2

/-- C2 (witness): the amended theorem applied with the min-tick power `-8`,
the empty book, a one-order diff at price 100, and an empty snapshot. -/
theorem C2_witness :
    (-8 : Int) ≤ (-8 : Int) ∧
    (noZeroLevels PriceMap.empty →
      noZeroLevels (Depth.diff_price_levels PriceMap.empty [⟨100, 5⟩] ⟨-8⟩)) :=
  ⟨by decide,
    (C2_no_zero_levels ⟨-8⟩ PriceMap.empty [⟨100, 5⟩] LocalDepthCache.default
      ⟨0, 0, [], []⟩ 100 (by decide)).1⟩

/-! ## Claim C3: snapshot replaces both sides wholesale -/

/-- C3: applying a snapshot makes each side equal, pointwise, to the map the
spec describes — built from the snapshot's own order list with prices
rounded to the min tick — independent of the prior cache state `c` (the
right-hand sides never mention `c`), and sets `last_update_id` and `time`
from the snapshot. -/
theorem C3_snapshot_replaces (c : LocalDepthCache) (s : DepthPayload)
    (mt : MinTicksize) (k : Int) (hmt : -8 ≤ mt.power) :
    (c.update (.Snapshot s) mt).depth.bids k = specSnapshotSide s.bids mt k ∧
    (c.update (.Snapshot s) mt).depth.asks k = specSnapshotSide s.asks mt k ∧
    (c.update (.Snapshot s) mt).last_update_id = s.last_update_id ∧
    (c.update (.Snapshot s) mt).time = s.time := by
  refine ⟨?_, ?_, rfl, rfl⟩
  · have h : (c.update (.Snapshot s) mt).depth.bids k
        = s.bids.foldl (fun m2 o =>
            m2.insertLevel (Price.round_to_min_tick ⟨o.price⟩ mt).units o.qty)
            PriceMap.empty k := rfl
    rw [h, replace_side_apply]
    unfold specSnapshotSide
    cases s.bids.reverse.find? (fun o =>
        decide ((Price.round_to_min_tick ⟨o.price⟩ mt).units = k)) <;> rfl
  · have h : (c.update (.Snapshot s) mt).depth.asks k
        = s.asks.foldl (fun m2 o =>
            m2.insertLevel (Price.round_to_min_tick ⟨o.price⟩ mt).units o.qty)
            PriceMap.empty k := rfl
    rw [h, replace_side_apply]
    unfold specSnapshotSide
    cases s.asks.reverse.find? (fun o =>
        decide ((Price.round_to_min_tick ⟨o.price⟩ mt).units = k)) <;> rfl

/-- C3 (witness): the theorem applied to a concrete snapshot over a
non-empty prior cache. -/
theorem C3_witness :
    (-8 : Int) ≤ (-8 : Int) ∧
    ((LocalDepthCache.mk 3 9 ⟨PriceMap.empty.insertLevel 55 7, PriceMap.empty⟩).update
        (.Snapshot ⟨9, 1, [⟨100, 2⟩], [⟨200, 3⟩]⟩) ⟨-8⟩).depth.bids 100
      = specSnapshotSide [⟨100, 2⟩] ⟨-8⟩ 100 :=
  ⟨by decide,
    (C3_snapshot_replaces
      (LocalDepthCache.mk 3 9 ⟨PriceMap.empty.insertLevel 55 7, PriceMap.empty⟩)
      ⟨9, 1, [⟨100, 2⟩], [⟨200, 3⟩]⟩ ⟨-8⟩ 100 (by decide)).1⟩

/-! ## Claim C1: gap detection, resync, and diff application -/

/-- The gap-causing diff of the C1 run: identifier range `10..12` against a
locally applied `last_update_id` of 5 (so `first_id > last_update_id + 1`),
carrying one bid level. -/
def binanceGapDiff : DepthPayload := ⟨12, 77, [⟨100, 3⟩], []⟩

/-- The C1 run's loop state before the gap event: a synced book
(`last_update_id = 5`, empty sides), first event after snapshot
(`prev_id = 0`), no fetch in flight, connected. -/
def binanceGapState : HandlerState :=
  ⟨⟨5, 0, ⟨PriceMap.empty, PriceMap.empty⟩⟩, 0, false, .connected⟩

/-- C1 (code bug): on the gap event the handler does call `try_resync`, but
when the snapshot fetch fails (`fetch_depth` returns `Err`) control falls
through and the out-of-sync diff is applied to the retained book anyway —
the book-operation trace is `[diff]` with no snapshot ever applied — and the
corrupted depth is even published as a `DepthReceived` event after the
`Disconnected` report. The claim (and spec: "until resync completes, no
diff is applied and the previous depth is retained") requires that no diff
be applied. -/
theorem C1_failed_resync_applies_gap_diff :
    (handle_depth_perp binanceGapState 10 12 11 binanceGapDiff
        FetchOutcome.fetchErr ⟨-8⟩).2.1 = [BookOp.diff binanceGapDiff] ∧
    (handle_depth_perp binanceGapState 10 12 11 binanceGapDiff
        FetchOutcome.fetchErr ⟨-8⟩).2.2
      = [StreamEvent.disconnected, StreamEvent.depthReceived 77] ∧
    (handle_depth_perp binanceGapState 10 12 11 binanceGapDiff
        FetchOutcome.fetchErr ⟨-8⟩).1.orderbook.depth.bids 100 = some 3 := by
  refine ⟨by decide, by decide, by decide⟩

/-! ## Claim C5: fixed-window limiter admits 10, delays the 11th -/

/-- `refill` is a no-op while the window has not elapsed and the wall clock
is not in the first second of the current fixed window. -/
theorem refill_noop (b : FixedWindowBucket) (now epoch_secs : Nat)
    (h1 : now - b.last_refill < b.refill_rate)
    (h2 : 1 ≤ epoch_secs % (b.refill_rate / 1000)) :
    b.refill now epoch_secs = b := by
  have h3 : ¬ (b.refill_rate ≤ now - b.last_refill ∨
      epoch_secs % (b.refill_rate / 1000) < 1) := by
    push_neg
    exact ⟨h1, h2⟩
  simp only [FixedWindowBucket.refill, if_neg h3]

/-- A batch of weight-1 calls within the bucket's current window and budget
is admitted wholesale: every result is `none` and only the token count
drops. -/
theorem runCalls_all_admitted (calls : List (Nat × Nat × Nat))
    (b : FixedWindowBucket)
    (hcap : calls.length ≤ b.available_tokens)
    (hw : ∀ c ∈ calls, c.2.2 = 1)
    (hfresh : ∀ c ∈ calls, c.1 - b.last_refill < b.refill_rate ∧
      1 ≤ c.2.1 % (b.refill_rate / 1000)) :
    (b.runCalls calls).2 = List.replicate calls.length none ∧
    (b.runCalls calls).1 =
      ⟨b.max_tokens, b.available_tokens - calls.length, b.last_refill,
        b.refill_rate⟩ := by
  induction calls generalizing b with
  | nil =>
      cases b
      exact ⟨rfl, rfl⟩
  | cons c cs ih =>
      obtain ⟨now, ep, tk⟩ := c
      have htk : tk = 1 := hw _ (List.mem_cons_self _ _)
      have hf := hfresh _ (List.mem_cons_self _ _)
      have hrefill : b.refill now ep = b := refill_noop b now ep hf.1 hf.2
      have hlen : cs.length + 1 ≤ b.available_tokens := by
        simpa using hcap
      have hcalc : b.calculate_wait_time now ep tk =
          (none, ⟨b.max_tokens, b.available_tokens - tk, b.last_refill,
            b.refill_rate⟩) := by
        simp only [FixedWindowBucket.calculate_wait_time, hrefill]
        rw [if_pos (by omega)]
      have hstep : b.runCalls ((now, ep, tk) :: cs) =
          ((⟨b.max_tokens, b.available_tokens - tk, b.last_refill,
              b.refill_rate⟩ : FixedWindowBucket).runCalls cs |>.1,
            none :: ((⟨b.max_tokens, b.available_tokens - tk, b.last_refill,
              b.refill_rate⟩ : FixedWindowBucket).runCalls cs |>.2)) := by
        simp only [FixedWindowBucket.runCalls, hcalc]
      have ih2 := ih ⟨b.max_tokens, b.available_tokens - tk, b.last_refill,
          b.refill_rate⟩ (by simp; omega)
        (fun c hc => hw c (List.mem_cons_of_mem _ hc))
        (fun c hc => hfresh c (List.mem_cons_of_mem _ hc))
      rw [hstep]
      refine ⟨?_, ?_⟩
      · simp only [ih2.1, List.length_cons, List.replicate_succ]
      · rw [ih2.2]
        have : b.available_tokens - tk - cs.length
            = b.available_tokens - (cs.length + 1) := by omega
        simp [this]

/-- C5: starting from a full 10-token bucket over a 60-second window created
at instant `t0`, any 10 weight-1 `calculate_wait_time` calls that stay
inside the window (elapsed below 60 s, wall clock past the window's first
second — i.e. no boundary crossing) are all admitted with no wait, and an
11th such call returns a wait that is positive and at most the window
length. -/
theorem C5_fixed_window_sequence (t0 : Nat) (calls : List (Nat × Nat × Nat))
    (now11 ep11 : Nat)
    (hlen : calls.length = 10)
    (hw : ∀ c ∈ calls, c.2.2 = 1)
    (hfresh : ∀ c ∈ calls, c.1 - t0 < 60000 ∧ 1 ≤ c.2.1 % 60)
    (h11a : now11 - t0 < 60000) (h11b : 1 ≤ ep11 % 60) :
    ((FixedWindowBucket.new 10 60000 t0).runCalls calls).2
      = List.replicate 10 none ∧
    ∃ w, (((FixedWindowBucket.new 10 60000 t0).runCalls calls).1.calculate_wait_time
        now11 ep11 1).1 = some w ∧ 0 < w ∧ w ≤ 60000 := by
  have hdiv : (FixedWindowBucket.new 10 60000 t0).refill_rate / 1000 = 60 := by
    norm_num [FixedWindowBucket.new]
  have hfr : ∀ c ∈ calls,
      c.1 - (FixedWindowBucket.new 10 60000 t0).last_refill
        < (FixedWindowBucket.new 10 60000 t0).refill_rate ∧
      1 ≤ c.2.1 % ((FixedWindowBucket.new 10 60000 t0).refill_rate / 1000) := by
    intro c hc
    have h := hfresh c hc
    refine ⟨h.1, ?_⟩
    rw [hdiv]
    exact h.2
  have hrun := runCalls_all_admitted calls (FixedWindowBucket.new 10 60000 t0)
    (by simp [FixedWindowBucket.new, hlen]) hw hfr
  refine ⟨by rw [hrun.1, hlen], ?_⟩
  rw [hrun.2]
  have hbucket : (⟨(FixedWindowBucket.new 10 60000 t0).max_tokens,
      (FixedWindowBucket.new 10 60000 t0).available_tokens - calls.length,
      (FixedWindowBucket.new 10 60000 t0).last_refill,
      (FixedWindowBucket.new 10 60000 t0).refill_rate⟩ : FixedWindowBucket)
      = ⟨10, 0, t0, 60000⟩ := by
    simp [FixedWindowBucket.new, hlen]
  rw [hbucket]
  have hdiv2 : (⟨10, 0, t0, 60000⟩ : FixedWindowBucket).refill_rate / 1000 = 60 := by
    norm_num
  have hrefill : (⟨10, 0, t0, 60000⟩ : FixedWindowBucket).refill now11 ep11
      = ⟨10, 0, t0, 60000⟩ := by
    refine refill_noop _ _ _ h11a ?_
    rw [hdiv2]
    exact h11b
  refine ⟨60000 - (now11 - t0), ?_, by omega, by omega⟩
  simp only [FixedWindowBucket.calculate_wait_time, hrefill]
  rw [if_neg (by omega)]

/-- C5 (witness): the theorem applied to ten concrete weight-1 calls at
instant 1000 (bucket created at 0), eleventh call at instant 2000, wall
clock at second 30 of the minute. -/
theorem C5_witness :
    (List.replicate 10 ((1000 : Nat), (30 : Nat), (1 : Nat))).length = 10 ∧
    (∀ c ∈ List.replicate 10 ((1000 : Nat), (30 : Nat), (1 : Nat)), c.2.2 = 1) ∧
    (∀ c ∈ List.replicate 10 ((1000 : Nat), (30 : Nat), (1 : Nat)),
      c.1 - 0 < 60000 ∧ 1 ≤ c.2.1 % 60) ∧
    (2000 : Nat) - 0 < 60000 ∧ 1 ≤ (30 : Nat) % 60 ∧
    ((FixedWindowBucket.new 10 60000 0).runCalls
        (List.replicate 10 ((1000 : Nat), (30 : Nat), (1 : Nat)))).2
      = List.replicate 10 none :=
  ⟨by decide, by decide, by decide, by decide, by decide,
    (C5_fixed_window_sequence 0 (List.replicate 10 (1000, 30, 1)) 2000 30
      (by decide) (by decide) (by decide) (by decide) (by decide)).1⟩

/-! ## Claim C6: dynamic limiter with a fresh venue report -/

/-- C6 (counterexample): the claim's "admitted with no wait exactly when
reported-usage + w is at most the declared maximum" fails at a weight-0
request under a fresh over-max report: with declared max 10 and reported
usage 11 (reports come from the venue and are not clamped), weight 0 is
admitted (`saturating_sub` makes the available budget 0 and `0 ≤ 0`), yet
`11 + 0 ≤ 10` is false. -/
theorem C6_counterexample :
    ((DynamicBucket.mk 10 11 0 60000
        (FixedWindowBucket.new 10 60000 0)).prepare_request 0 30 0).1.1 = none ∧
    ¬ (11 + 0 ≤ 10) ∧
    (0 : Nat) - 0 ≤ 60000 ∧ 0 < 11 := by
  refine ⟨?_, by decide, by decide, by decide⟩
  decide

/-- C6 (amended): while the venue report is fresh (and nonzero) it is
authoritative — the fallback bucket is not consulted and the bucket state is
untouched. A weight-`w` request is admitted with no wait exactly when `w`
fits the remaining budget `max - used` under saturating subtraction; for
`w ≥ 1` that is equivalent to the claim's `used + w ≤ max`. A rejected
request waits the remainder of the venue's declared window plus the fixed
500 ms margin, and the 9-of-10, weight-2 request is delayed. -/
theorem C6_dynamic_fresh_report (b : DynamicBucket) (now epoch_secs w : Nat)
    (hfresh : now - b.last_updated ≤ b.refill_rate)
    (hused : 0 < b.current_used_weight) :
    ((b.prepare_request now epoch_secs w).1.1 = none ↔
      w ≤ b.max_weight - b.current_used_weight)
    ∧ (1 ≤ w → ((b.prepare_request now epoch_secs w).1.1 = none ↔
        b.current_used_weight + w ≤ b.max_weight))
    ∧ (¬ w ≤ b.max_weight - b.current_used_weight →
        (b.prepare_request now epoch_secs w).1.1
          = some ((b.refill_rate / 1000 - epoch_secs % (b.refill_rate / 1000))
              * 1000 + 500))
    ∧ (b.prepare_request now epoch_secs w).2 = b
    ∧ (b.max_weight = 10 → b.current_used_weight = 9 → w = 2 →
        (b.prepare_request now epoch_secs w).1.1 ≠ none) := by
  have hpr : b.prepare_request now epoch_secs w
      = (b.prepare_with_header_data epoch_secs w, b) := by
    simp only [DynamicBucket.prepare_request, if_pos (And.intro hfresh hused)]
  rw [hpr]
  by_cases hw2 : w ≤ b.max_weight - b.current_used_weight
  · simp only [DynamicBucket.prepare_with_header_data, if_pos hw2]
    refine ⟨iff_of_true trivial hw2, fun h1w => iff_of_true trivial (by omega),
      fun hc => absurd hw2 hc, trivial, ?_⟩
    intro hmax husd hwv
    rw [hmax, husd, hwv] at hw2
    omega
  · simp only [DynamicBucket.prepare_with_header_data, if_neg hw2]
    refine ⟨iff_of_false (by simp) hw2,
      fun h1w => iff_of_false (by simp) (by omega),
      fun _ => trivial, trivial, fun _ _ _ => by simp⟩

/-- C6 (witness): the amended theorem at the claim's 9-of-10, weight-2
instance. -/
theorem C6_witness :
    (0 : Nat) - 0 ≤ 60000 ∧ (0 : Nat) < 9 ∧
    ((DynamicBucket.mk 10 9 0 60000
        (FixedWindowBucket.new 10 60000 0)).prepare_request 0 30 2).1.1 ≠ none :=
  ⟨by decide, by decide,
    (C6_dynamic_fresh_report
      (DynamicBucket.mk 10 9 0 60000 (FixedWindowBucket.new 10 60000 0))
      0 30 2 (by decide) (by decide)).2.2.2.2 rfl rfl rfl⟩
